import Mathlib

/-!
# csvmap: records as maps of column names to values

A shallow embedding of `csvmap.go` (package `csvmap`, a companion to Go's
`encoding/csv`) together with the properties of its `Reader` and `Writer`.

Modelling conventions

* A Go `[]string` is a `List String`; a `nil` slice is the empty list.
* A Go `map[string]string` is a `GoMap`: a list of key/value entries in which
  every key occurs at most once.  `m[k] = v` is `GoMap.assign`, the one-result
  index expression `m[k]` is `GoMap.index` (the zero value `""` for a missing
  key), `len(m)` is `GoMap.len`.
* `*csv.Reader` and `*csv.Writer` belong to the standard library.  They are
  parameters of the development: a `CsvReader σ ε` is any state machine with a
  `Read` operation on states `σ`, a `CsvWriter τ ε` any state machine with
  `Write`, `Flush` and `Error`.  `ε` is the type of Go `error` values, and a
  `nil` error is `none`.
* A Go result `(x, err)` of the library is kept as a pair, since the library may
  fill both components.  The results of `csvmap` itself are always exactly one of
  a value and an error and are given as `Except`.
* Strings are values.  A slice is a view of a backing array, and `NewReader`
  keeps the slice the library returned as the header without copying it.  A
  `*csv.Reader` may write into that array again on a later `Read` (it does so
  when `ReuseRecord` is set), so a `CsvReader` also tells, with `Reuse`, what a
  `Read` stores into the slice the `Reader` kept, and the `header` of a `Reader`
  is the current content of that slice.
-/

namespace csvmap

/-! ## Go maps -/

/-- A Go `map[string]string`, as the list of its entries. -/
structure GoMap where
  entries : List (String × String)
deriving DecidableEq, Repr

namespace GoMap

/-- The Go expression `make(map[string]string, n)`: an empty map; the
capacity hint has no observable effect. -/
def make (_n : Int) : GoMap := ⟨[]⟩

/-- Entry lookup in a list of entries. -/
def lookupEntries : List (String × String) → String → Option String
  | [], _ => none
  | (k, v) :: rest, name => if k = name then some v else lookupEntries rest name

/-- The two-result index expression `v, ok := m[name]`. -/
def lookup (m : GoMap) (name : String) : Option String :=
  lookupEntries m.entries name

/-- The one-result index expression `m[name]`: the zero value `""` when the
key is absent. -/
def index (m : GoMap) (name : String) : String :=
  match m.lookup name with
  | some v => v
  | none => ""

/-- Assignment into a list of entries: overwrite the entry of an existing
key, add an entry otherwise. -/
def assignEntries : List (String × String) → String → String → List (String × String)
  | [], k, v => [(k, v)]
  | (k', v') :: rest, k, v =>
    if k' = k then (k', v) :: rest else (k', v') :: assignEntries rest k v

/-- The statement `m[k] = v`. -/
def assign (m : GoMap) (k v : String) : GoMap :=
  ⟨assignEntries m.entries k v⟩

/-- The keys of the map. -/
def keys (m : GoMap) : List String := m.entries.map Prod.fst

/-- The Go expression `len(m)`. -/
def len (m : GoMap) : Nat := m.entries.length

end GoMap

/-! ## The `encoding/csv` collaborators -/

/-- A `*csv.Reader`: `Read` returns `(record, err)` and moves the reader on.
`Reuse s i` is what the `Read` made in state `s` stores at index `i` of the
backing array of the slice that an earlier `Read` returned and the caller
kept; `none` when that element is left as it is. -/
structure CsvReader (σ ε : Type) where
  Read : σ → (List String × Option ε) × σ
  Reuse : σ → Nat → Option String

/-- The content of a slice after the elements from index `i` on have been
stored into as `f` tells. -/
def storeLoop (f : Nat → Option String) : Nat → List String → List String
  | _, [] => []
  | i, x :: xs =>
    (match f i with
      | some y => y
      | none => x) :: storeLoop f (i + 1) xs

/-- The content of the kept slice `held` once the `Read` made in state `s`
has returned. -/
def CsvReader.after {σ ε : Type} (csvr : CsvReader σ ε) (s : σ) (held : List String) :
    List String :=
  storeLoop (csvr.Reuse s) 0 held

/-- A `*csv.Writer`: `Write(record)` returns an error or `nil`, `Flush()`
returns nothing, `Error()` reports an error or `nil`. -/
structure CsvWriter (τ ε : Type) where
  Write : τ → List String → Option ε × τ
  Flush : τ → τ
  Error : τ → Option ε × τ

/-! ## `csvmap.go` -/

/-- The helper `func min(a, b int) int`. -/
def min (a b : Int) : Int :=
  if a < b then a else b

/-- The struct `Reader`; `r` is the current state of the wrapped `*csv.Reader`,
`header` the current content of the slice `r.header`. -/
structure Reader (σ : Type) where
  r : σ
  header : List String

/-- The function `NewReader(r)`.  The second component is the state of the
`*csv.Reader` when `NewReader` returns.  The header is the very slice the
library returned: it is not copied. -/
def NewReader {σ ε : Type} (csvr : CsvReader σ ε) (r : σ) : Except ε (Reader σ) × σ :=
  match csvr.Read r with
  | ((_, some err), r') => (Except.error err, r')
  | ((header, none), r') => (Except.ok ⟨r', header⟩, r')

/-- The method `(*Reader).Header`. -/
def Reader.Header {σ : Type} (r : Reader σ) : List String :=
  r.header

/-- The loop of `HasColumn`: `for _, col := range header`. -/
def hasColumnLoop (name : String) : List String → Bool
  | [] => false
  | col :: rest => if col = name then true else hasColumnLoop name rest

/-- The method `(*Reader).HasColumn`. -/
def Reader.HasColumn {σ : Type} (r : Reader σ) (name : String) : Bool :=
  hasColumnLoop name r.header

/-- The loop of `Read`: `for i := range record`, entered at index `i` with
the fields from `i` on still to visit and the map built so far. -/
def readLoop (header : List String) : Nat → List String → GoMap → GoMap
  | _, [], out => out
  | i, field :: rest, out =>
    if h : i ≥ header.length then out
    else readLoop header (i + 1) rest (out.assign (header.get ⟨i, by omega⟩) field)

/-- The body of `Read` after the error check: the map built from the header
and a positional record. -/
def readRecord (header record : List String) : GoMap :=
  readLoop header 0 record (GoMap.make (min header.length record.length))

/-- The method `(*Reader).Read`.  The call `r.r.Read()` comes first and may
store into the header slice; the loop then indexes the header as that call
left it. -/
def Reader.Read {σ ε : Type} (csvr : CsvReader σ ε) (r : Reader σ) :
    Except ε GoMap × Reader σ :=
  match csvr.Read r.r with
  | ((_, some err), r') => (Except.error err, ⟨r', csvr.after r.r r.header⟩)
  | ((record, none), r') =>
    (Except.ok (readRecord (csvr.after r.r r.header) record), ⟨r', csvr.after r.r r.header⟩)

/-- The struct `Writer`; `w` is the current state of the wrapped `*csv.Writer`. -/
structure Writer (τ : Type) where
  w : τ
  header : List String

/-- The function `NewWriter(w, header)`. -/
def NewWriter {τ : Type} (w : τ) (header : List String) : Writer τ :=
  ⟨w, header⟩

/-- The method `(*Writer).WriteHeader`. -/
def Writer.WriteHeader {τ ε : Type} (csvw : CsvWriter τ ε) (w : Writer τ) :
    Option ε × Writer τ :=
  match csvw.Write w.w w.header with
  | (err, w') => (err, ⟨w', w.header⟩)

/-- The loop of `Write`: `for i, name := range header { s[i] = record[name] }`,
entered at index `i` with the names from `i` on still to visit. -/
def writeLoop (record : GoMap) : Nat → List String → List String → List String
  | _, [], s => s
  | i, name :: rest, s => writeLoop record (i + 1) rest (s.set i (record.index name))

/-- The slice `s` that `Write` hands to the `*csv.Writer`. -/
def writeRecord (header : List String) (record : GoMap) : List String :=
  writeLoop record 0 header (List.replicate header.length "")

/-- The method `(*Writer).Write`. -/
def Writer.Write {τ ε : Type} (csvw : CsvWriter τ ε) (w : Writer τ) (record : GoMap) :
    Option ε × Writer τ :=
  match csvw.Write w.w (writeRecord w.header record) with
  | (err, w') => (err, ⟨w', w.header⟩)

/-- The method `(*Writer).WriteAll`. -/
def Writer.WriteAll {τ ε : Type} (csvw : CsvWriter τ ε) (w : Writer τ) :
    List GoMap → Option ε × Writer τ
  | [] =>
    match csvw.Error (csvw.Flush w.w) with
    | (err, w') => (err, ⟨w', w.header⟩)
  | record :: records =>
    match Writer.Write csvw w record with
    | (some err, w') => (some err, w')
    | (none, w') => Writer.WriteAll csvw w' records

/-! ## Observing the collaborators

The calls a `Reader` or `Writer` makes on its collaborator are observed by
wrapping the collaborator: the wrapper answers as the wrapped machine does and
records every call. -/

/-- One call on a `*csv.Writer`. -/
inductive SinkCall where
  | Write (record : List String)
  | Flush
  | Error
deriving DecidableEq, Repr

/-- The writer `csvw` with a log of the calls made on it, oldest first. -/
def CsvWriter.logged {τ ε : Type} (csvw : CsvWriter τ ε) : CsvWriter (τ × List SinkCall) ε where
  Write := fun t record => ((csvw.Write t.1 record).1, ((csvw.Write t.1 record).2, t.2 ++ [SinkCall.Write record]))
  Flush := fun t => (csvw.Flush t.1, t.2 ++ [SinkCall.Flush])
  Error := fun t => ((csvw.Error t.1).1, ((csvw.Error t.1).2, t.2 ++ [SinkCall.Error]))

/-- The reader `csvr` with a count of the `Read` calls made on it. -/
def CsvReader.counted {σ ε : Type} (csvr : CsvReader σ ε) : CsvReader (σ × Nat) ε where
  Read := fun s => ((csvr.Read s.1).1, ((csvr.Read s.1).2, s.2 + 1))
  Reuse := fun s => csvr.Reuse s.1

/-- A source replaying a list of records: each `Read` yields the next record,
and `eof` once the list is used up.  Every record is a new slice: nothing is
stored into a slice returned earlier. -/
def replaySource {ε : Type} (eof : ε) : CsvReader (List (List String)) ε where
  Read := fun s =>
    match s with
    | [] => (([], some eof), [])
    | record :: rest => ((record, none), rest)
  Reuse := fun _ _ => none

/-- How the record buffer of a `*csv.Reader` with `ReuseRecord` set relates to
the slice the caller kept from the first `Read`: `unread cap` before that
`Read`, the buffer having capacity `cap` (0 for a new reader); `shared cap`
while the buffer is the backing array of the kept slice; `apart` once the
reader has moved to another buffer. -/
inductive Backing where
  | unread (cap : Nat)
  | shared (cap : Nat)
  | apart
deriving DecidableEq, Repr

/-- The buffer after a record of `n` fields was read: the buffer is used again
when its capacity is at least `n` and replaced by a new one otherwise. -/
def Backing.next : Backing → Nat → Backing
  | Backing.unread cap, n => if n ≤ cap then Backing.shared cap else Backing.shared n
  | Backing.shared cap, n => if n ≤ cap then Backing.shared cap else Backing.apart
  | Backing.apart, _ => Backing.apart

/-- A source replaying a list of records the way a `*csv.Reader` with
`ReuseRecord` set (and no check of the field count) returns them: a record
that fits the buffer is stored into it, so it overwrites the first elements
of the slice kept from the first `Read` while the buffer is shared. -/
def reuseSource {ε : Type} (eof : ε) : CsvReader (List (List String) × Backing) ε where
  Read := fun s =>
    match s.1 with
    | [] => (([], some eof), ([], Backing.apart))
    | record :: rest => ((record, none), (rest, s.2.next record.length))
  Reuse := fun s i =>
    match s.1, s.2 with
    | record :: _, Backing.shared cap => if record.length ≤ cap then record[i]? else none
    | _, _ => none

/-- A sink that accepts every record and keeps the records it was handed,
oldest first; `Flush` succeeds and `Error` reports `nil`. -/
def collectSink {ε : Type} : CsvWriter (List (List String)) ε where
  Write := fun t record => (none, t ++ [record])
  Flush := fun t => t
  Error := fun t => (none, t)

/-- The state after `records` have been written one after the other to `csvw`
from state `t` and all were accepted; `none` when one of them is refused. -/
def CsvWriter.accepts {τ ε : Type} (csvw : CsvWriter τ ε) : τ → List (List String) → Option τ
  | t, [] => some t
  | t, record :: records =>
    match csvw.Write t record with
    | (none, t') => CsvWriter.accepts csvw t' records
    | (some _, _) => none

/-- From state `s` the source `csvr` yields `records` one after the other
without error, each time leaving the content of the kept slice `held` as it
is, and then answers the next `Read` with the error `e`. -/
def CsvReader.yields {σ ε : Type} (csvr : CsvReader σ ε) (e : ε) (held : List String) :
    σ → List (List String) → Prop
  | s, [] => (csvr.Read s).1.2 = some e
  | s, record :: records =>
    (csvr.Read s).1 = (record, none) ∧ csvr.after s held = held ∧
      CsvReader.yields csvr e held (csvr.Read s).2 records

/-- Whether a source yields given records and then a given error can be
computed when errors can be compared. -/
instance CsvReader.decidableYields {σ ε : Type} [DecidableEq ε] (csvr : CsvReader σ ε) (e : ε)
    (held : List String) :
    (s : σ) → (records : List (List String)) → Decidable (csvr.yields e held s records)
  | s, [] => inferInstanceAs (Decidable ((csvr.Read s).1.2 = some e))
  | s, record :: records =>
    have := CsvReader.decidableYields csvr e held (csvr.Read s).2 records
    inferInstanceAs (Decidable ((csvr.Read s).1 = (record, none) ∧ csvr.after s held = held ∧
      csvr.yields e held (csvr.Read s).2 records))

/-- A client calling `Read` `n` times in a row: the results in call order
and the reader afterwards. -/
def Reader.readN {σ ε : Type} (csvr : CsvReader σ ε) : Nat → Reader σ → List (Except ε GoMap) × Reader σ
  | 0, r => ([], r)
  | n + 1, r =>
    ((Reader.Read csvr r).1 :: (Reader.readN csvr n (Reader.Read csvr r).2).1,
      (Reader.readN csvr n (Reader.Read csvr r).2).2)

/-- Assigning the pairs of a list one after the other, oldest first: the
closed form of the loop of `Read`. -/
def assignAll (out : GoMap) (l : List (String × String)) : GoMap :=
  l.foldl (fun m p => m.assign p.1 p.2) out

/-- A sink that refuses its `k`-th record (counted from 1) with the error `e`
and accepts every other one; its state is the number of `Write` calls so far. -/
def failingSink {ε : Type} (k : Nat) (e : ε) : CsvWriter Nat ε where
  Write := fun t _ => (if t + 1 = k then some e else none, t + 1)
  Flush := fun t => t
  Error := fun t => (none, t)

/-- A sink that accepts every record and whose `Flush` fails: after a flush
`Error` reports `e`.  Its state tells whether a flush has happened. -/
def flushFailingSink {ε : Type} (e : ε) : CsvWriter Bool ε where
  Write := fun t _ => (none, t)
  Flush := fun _ => true
  Error := fun t => (if t then some e else none, t)

/-- One call on a `Reader` after its construction. -/
inductive ReaderCall where
  | Header
  | HasColumn (name : String)
  | Read
deriving DecidableEq, Repr

/-- The `Reader` after one call on it.  `Header` and `HasColumn` only read the
receiver; `Read` moves the wrapped `*csv.Reader` on. -/
def Reader.call {σ ε : Type} (csvr : CsvReader σ ε) (r : Reader σ) : ReaderCall → Reader σ
  | ReaderCall.Header => r
  | ReaderCall.HasColumn _ => r
  | ReaderCall.Read => (Reader.Read csvr r).2

/-- The `Reader` after a sequence of calls, oldest first. -/
def Reader.calls {σ ε : Type} (csvr : CsvReader σ ε) (r : Reader σ) (cs : List ReaderCall) :
    Reader σ :=
  cs.foldl (Reader.call csvr) r

/-- One call on a `Writer` after its construction. -/
inductive WriterCall where
  | WriteHeader
  | Write (record : GoMap)
  | WriteAll (records : List GoMap)
deriving Repr

/-- The `Writer` after one call on it. -/
def Writer.call {τ ε : Type} (csvw : CsvWriter τ ε) (w : Writer τ) : WriterCall → Writer τ
  | WriterCall.WriteHeader => (Writer.WriteHeader csvw w).2
  | WriterCall.Write record => (Writer.Write csvw w record).2
  | WriterCall.WriteAll records => (Writer.WriteAll csvw w records).2

/-- The `Writer` after a sequence of calls, oldest first. -/
def Writer.calls {τ ε : Type} (csvw : CsvWriter τ ε) (w : Writer τ) (cs : List WriterCall) :
    Writer τ :=
  cs.foldl (Writer.call csvw) w

/-! # Properties -/

/-! ## Go maps: lookup after assignment -/

theorem lookupEntries_assignEntries (l : List (String × String)) (k v c : String) :
    GoMap.lookupEntries (GoMap.assignEntries l k v) c =
      if k = c then some v else GoMap.lookupEntries l c := by
  induction l with
  | nil => simp [GoMap.assignEntries, GoMap.lookupEntries]
  | cons p rest ih =>
    obtain ⟨k', v'⟩ := p
    by_cases hk : k' = k
    · subst hk
      by_cases hc : k' = c <;> simp [GoMap.assignEntries, GoMap.lookupEntries, hc]
    · by_cases hc : k' = c
      · subst hc
        have : ¬ k = k' := fun h => hk h.symm
        simp [GoMap.assignEntries, GoMap.lookupEntries, hk, this]
      · simp [GoMap.assignEntries, GoMap.lookupEntries, hk, hc, ih]

theorem lookup_assign (m : GoMap) (k v c : String) :
    (m.assign k v).lookup c = if k = c then some v else m.lookup c := by
  simp [GoMap.assign, GoMap.lookup, lookupEntries_assignEntries]

theorem lookup_make (n : Int) (c : String) : (GoMap.make n).lookup c = none := rfl

theorem mem_keys_iff_lookup (m : GoMap) (c : String) :
    c ∈ m.keys ↔ ∃ v, m.lookup c = some v := by
  obtain ⟨l⟩ := m
  simp only [GoMap.keys, GoMap.lookup]
  induction l with
  | nil => simp [GoMap.lookupEntries]
  | cons p rest ih =>
    obtain ⟨k', v'⟩ := p
    by_cases hc : k' = c
    · simp [GoMap.lookupEntries, hc]
    · have hc' : ¬ c = k' := fun h => hc h.symm
      simp only [List.map_cons, List.mem_cons, hc', false_or, GoMap.lookupEntries, hc, if_false]
      exact ih

theorem readLoop_eq_assignAll (header : List String) (i : Nat) (fields : List String)
    (out : GoMap) :
    readLoop header i fields out = assignAll out ((header.drop i).zip fields) := by
  induction fields generalizing i out with
  | nil => simp [readLoop, assignAll]
  | cons f rest ih =>
    by_cases h : i ≥ header.length
    · simp [readLoop, h, assignAll, List.drop_eq_nil_of_le h]
    · have hi : i < header.length := by omega
      rw [readLoop, dif_neg h, ih]
      conv_rhs => rw [List.drop_eq_getElem_cons hi]
      rfl

theorem readRecord_eq_assignAll (header record : List String) :
    readRecord header record = assignAll ⟨[]⟩ (header.zip record) := by
  simp [readRecord, readLoop_eq_assignAll, GoMap.make]

theorem lookup_assignAll_append (out : GoMap) (l : List (String × String)) (k v c : String) :
    (assignAll out (l ++ [(k, v)])).lookup c =
      if k = c then some v else (assignAll out l).lookup c := by
  simp [assignAll, List.foldl_append, lookup_assign]

theorem lookup_assignAll_of_not_mem (out : GoMap) (l : List (String × String)) (c : String)
    (h : ∀ p ∈ l, p.1 ≠ c) : (assignAll out l).lookup c = out.lookup c := by
  induction l generalizing out with
  | nil => rfl
  | cons p rest ih =>
    have h1 : p.1 ≠ c := h p (List.mem_cons_self _ _)
    have : assignAll out (p :: rest) = assignAll (out.assign p.1 p.2) rest := rfl
    rw [this, ih _ (fun q hq => h q (List.mem_cons_of_mem _ hq)), lookup_assign, if_neg h1]

theorem lookup_assignAll_last (out : GoMap) (l : List (String × String)) (i : Nat)
    (k v : String) (hi : l[i]? = some (k, v))
    (hlast : ∀ j p, i < j → l[j]? = some p → p.1 ≠ k) :
    (assignAll out l).lookup k = some v := by
  induction l generalizing out i with
  | nil => simp at hi
  | cons p rest ih =>
    have hstep : assignAll out (p :: rest) = assignAll (out.assign p.1 p.2) rest := rfl
    rw [hstep]
    cases i with
    | zero =>
      simp at hi
      subst hi
      rw [lookup_assignAll_of_not_mem, lookup_assign]
      · simp
      · intro q hq
        obtain ⟨j, hj⟩ := List.getElem?_of_mem hq
        exact hlast (j + 1) q (by omega) (by simpa using hj)
    | succ i =>
      apply ih _ i (by simpa using hi)
      intro j q hij hq
      exact hlast (j + 1) q (by omega) (by simpa using hq)

theorem mem_keys_assignAll (out : GoMap) (l : List (String × String)) (c : String) :
    c ∈ (assignAll out l).keys ↔ c ∈ out.keys ∨ c ∈ l.map Prod.fst := by
  induction l generalizing out with
  | nil => simp [assignAll]
  | cons p rest ih =>
    have hstep : assignAll out (p :: rest) = assignAll (out.assign p.1 p.2) rest := rfl
    rw [hstep, ih]
    have : c ∈ (out.assign p.1 p.2).keys ↔ c ∈ out.keys ∨ c = p.1 := by
      rw [mem_keys_iff_lookup, mem_keys_iff_lookup, lookup_assign]
      by_cases hc : p.1 = c
      · simp [hc]
      · have hc' : ¬ c = p.1 := fun h => hc h.symm
        simp [hc, hc']
    rw [this]
    simp [or_assoc]

theorem map_fst_zip_eq_take (l : List String) (r : List String) :
    (l.zip r).map Prod.fst = l.take r.length := by
  induction l generalizing r with
  | nil => simp
  | cons a l ih =>
    cases r with
    | nil => simp
    | cons b r => simp [ih]

theorem mem_keys_readRecord (header record : List String) (c : String) :
    c ∈ (readRecord header record).keys ↔ c ∈ header.take record.length := by
  rw [readRecord_eq_assignAll, mem_keys_assignAll]
  rw [map_fst_zip_eq_take]
  simp [GoMap.keys]

theorem zip_take_right (l r : List String) : l.zip (r.take l.length) = l.zip r := by
  induction l generalizing r with
  | nil => simp
  | cons a l ih =>
    cases r with
    | nil => simp
    | cons b r => simp [ih]

theorem lookup_readRecord_last (header record : List String) (i : Nat) (name field : String)
    (hH : header[i]? = some name) (hR : record[i]? = some field)
    (hlast : ∀ j, i < j → j < record.length → header[j]? ≠ some name) :
    (readRecord header record).lookup name = some field := by
  rw [readRecord_eq_assignAll]
  apply lookup_assignAll_last _ _ i
  · rw [List.getElem?_zip_eq_some]
    exact ⟨hH, hR⟩
  · intro j p hij hp
    rw [List.getElem?_zip_eq_some] at hp
    have hj : j < record.length := by
      have := hp.2
      rw [List.getElem?_eq_some_iff] at this
      exact this.1
    intro hname
    exact hlast j hij hj (by rw [hp.1, hname])

theorem storeLoop_none (i : Nat) (xs : List String) :
    storeLoop (fun _ => none) i xs = xs := by
  induction xs generalizing i with
  | nil => rfl
  | cons x xs ih => simp [storeLoop, ih]

theorem after_replaySource {ε : Type} (eof : ε) (s : List (List String)) (held : List String) :
    (replaySource eof).after s held = held :=
  storeLoop_none 0 held

theorem after_counted {σ ε : Type} (csvr : CsvReader σ ε) (s : σ) (n : Nat)
    (held : List String) : csvr.counted.after (s, n) held = csvr.after s held := rfl

theorem length_storeLoop (f : Nat → Option String) (i : Nat) (xs : List String) :
    (storeLoop f i xs).length = xs.length := by
  induction xs generalizing i with
  | nil => rfl
  | cons x xs ih => simp [storeLoop, ih]

theorem Read_ok {σ ε : Type} (csvr : CsvReader σ ε) (r : Reader σ) (record : List String)
    (h : (csvr.Read r.r).1 = (record, none)) :
    Reader.Read csvr r =
      (Except.ok (readRecord (csvr.after r.r r.header) record),
        ⟨(csvr.Read r.r).2, csvr.after r.r r.header⟩) := by
  unfold Reader.Read
  rcases hx : csvr.Read r.r with ⟨⟨rec, err⟩, r'⟩
  rw [hx] at h
  simp only [Prod.mk.injEq] at h
  obtain ⟨h1, h2⟩ := h
  subst h1 h2
  rfl

theorem Read_error {σ ε : Type} (csvr : CsvReader σ ε) (r : Reader σ) (e : ε)
    (h : (csvr.Read r.r).1.2 = some e) :
    Reader.Read csvr r = (Except.error e, ⟨(csvr.Read r.r).2, csvr.after r.r r.header⟩) := by
  unfold Reader.Read
  rcases hx : csvr.Read r.r with ⟨⟨rec, err⟩, r'⟩
  rw [hx] at h
  simp only at h
  subst h
  rfl

theorem Read_keep {σ ε : Type} (csvr : CsvReader σ ε) (r : Reader σ) (record : List String)
    (h : (csvr.Read r.r).1 = (record, none)) (hkeep : csvr.after r.r r.header = r.header) :
    Reader.Read csvr r = (Except.ok (readRecord r.header record), ⟨(csvr.Read r.r).2, r.header⟩) := by
  rw [Read_ok csvr r record h, hkeep]

/-! ## C1: a record no longer than the header -/

/-- C1, as stated, fails for a header with a repeated name: with header
`["a", "a"]` and record `["x", "y"]` the mapping returned by `Read` sends
`H[0] = "a"` to `"y"`, not to `R[0] = "x"`. -/
theorem read_short_record_each_field_counterexample :
    ¬ (∀ (header record : List String) (i : Nat) (name field : String),
        record.length ≤ header.length →
        header[i]? = some name → record[i]? = some field →
        ∃ m, (Reader.Read (replaySource "EOF") ⟨[record], header⟩).1 = Except.ok m ∧
          m.lookup name = some field) := by
  intro h
  obtain ⟨m, hm, hl⟩ := h ["a", "a"] ["x", "y"] 0 "a" "x" (by decide) rfl rfl
  have hm' : m = readRecord ["a", "a"] ["x", "y"] := by
    have : (Except.ok (readRecord ["a", "a"] ["x", "y"]) : Except String GoMap) = Except.ok m := hm
    injection this with this
    exact this.symm
  subst hm'
  revert hl
  decide

/-- C1 (amended): for every header `H` and record `R` with `len(R) ≤ len(H)`,
when the underlying source yields `R` and that read leaves the content of the
header slice as it is, `Read` returns a mapping whose key set is exactly the
names of the first `len(R)` header columns, and for every `i < len(R)` whose
name `H[i]` does not occur again at a later position below `len(R)` the
mapping sends `H[i]` to `R[i]`. -/
theorem read_short_record {σ ε : Type} (csvr : CsvReader σ ε) (r : Reader σ)
    (record : List String) (hlen : record.length ≤ r.header.length)
    (hsrc : (csvr.Read r.r).1 = (record, none))
    (hkeep : csvr.after r.r r.header = r.header) :
    ∃ m, (Reader.Read csvr r).1 = Except.ok m ∧
      (∀ c, c ∈ m.keys ↔ c ∈ r.header.take record.length) ∧
      ∀ (i : Nat) (name field : String), r.header[i]? = some name → record[i]? = some field →
        (∀ j, i < j → j < record.length → r.header[j]? ≠ some name) →
        m.lookup name = some field := by
  refine ⟨readRecord r.header record, ?_, ?_, ?_⟩
  · rw [Read_keep csvr r record hsrc hkeep]
  · exact mem_keys_readRecord r.header record
  · intro i name field hH hR hlast
    exact lookup_readRecord_last r.header record i name field hH hR hlast

/-- The example of the specification: header `["name", "age"]` and record
`["John", "8"]` read as `{"name": "John", "age": "8"}`. -/
theorem read_short_record_witness :
    ∃ m, (Reader.Read (replaySource "EOF") ⟨[["John", "8"]], ["name", "age"]⟩).1 = Except.ok m ∧
      (∀ c, c ∈ m.keys ↔ c ∈ ["name", "age"]) ∧
      m.lookup "name" = some "John" ∧ m.lookup "age" = some "8" := by
  obtain ⟨m, hm, hk, hl⟩ :=
    read_short_record (replaySource "EOF") ⟨[["John", "8"]], ["name", "age"]⟩ ["John", "8"]
      (by decide) rfl rfl
  refine ⟨m, hm, hk, ?_, ?_⟩
  · exact hl 0 "name" "John" rfl rfl (by
      intro j h0 h2
      have : j = 1 := by simp at h2; omega
      subst this
      decide)
  · exact hl 1 "age" "8" rfl rfl (by
      intro j h0 h2
      simp at h2
      omega)

/-! ## C2: a record longer than the header -/

/-- When the reads of the source leave the content of the header slice as it
is, a record longer than the header is read as C2 says: the key set of the
mapping is exactly the set of all header names, and every record that agrees
with `R` on its first `len(H)` fields yields an equal mapping. -/
theorem read_long_record_kept_header {σ ε : Type} (csvr : CsvReader σ ε) (r : Reader σ)
    (record : List String) (hlen : r.header.length < record.length)
    (hsrc : (csvr.Read r.r).1 = (record, none))
    (hkeep : csvr.after r.r r.header = r.header) :
    ∃ m, (Reader.Read csvr r).1 = Except.ok m ∧
      (∀ c, c ∈ m.keys ↔ c ∈ r.header) ∧
      ∀ (r' : Reader σ) (record' : List String), r'.header = r.header →
        (csvr.Read r'.r).1 = (record', none) →
        csvr.after r'.r r'.header = r'.header →
        record'.take r.header.length = record.take r.header.length →
        (Reader.Read csvr r').1 = Except.ok m := by
  refine ⟨readRecord r.header record, ?_, ?_, ?_⟩
  · rw [Read_keep csvr r record hsrc hkeep]
  · intro c
    rw [mem_keys_readRecord, List.take_of_length_le (Nat.le_of_lt hlen)]
  · intro r' record' hh hsrc' hkeep' htake
    rw [Read_keep csvr r' record' hsrc' hkeep', hh]
    simp only [readRecord_eq_assignAll]
    rw [← zip_take_right r.header record', htake, zip_take_right]

/-- C2 (the code at the failing input): a `*csv.Reader` with `ReuseRecord`
set whose record buffer has room for three fields yields `[a]`, taken as the
header by `NewReader`, and then `[x, y]`.  The library stores `x` into the
header slice before the loop of `Read` runs, so `Read` returns `{x: x}`: its
key set is not the set of header names `{a}`. -/
theorem read_long_record_reused :
    ∃ r m, (NewReader (reuseSource "EOF") ([["a"], ["x", "y"]], Backing.unread 3)).1 =
        Except.ok r ∧
      r.Header = ["a"] ∧
      (Reader.Read (reuseSource "EOF") r).1 = Except.ok m ∧
      m = ⟨[("x", "x")]⟩ ∧ ¬ (∀ c, c ∈ m.keys ↔ c ∈ r.Header) := by
  refine ⟨⟨([["x", "y"]], Backing.shared 3), ["a"]⟩, ⟨[("x", "x")]⟩, rfl, rfl, rfl, rfl, ?_⟩
  intro h
  exact absurd ((h "a").mpr (by decide)) (by decide)

theorem take_succ_set (s : List String) (i : Nat) (v : String) (h : i < s.length) :
    (s.set i v).take (i + 1) = s.take i ++ [v] := by
  induction s generalizing i with
  | nil => simp at h
  | cons a s ih =>
    cases i with
    | zero => simp
    | succ i =>
      have h' : i < s.length := by simpa using h
      simp [ih i h']

theorem writeLoop_eq (record : GoMap) (names : List String) (i : Nat) (s : List String)
    (hs : s.length = i + names.length) :
    writeLoop record i names s = s.take i ++ names.map record.index := by
  induction names generalizing i s with
  | nil =>
    have : s.length ≤ i := by simp at hs; omega
    simp [writeLoop, List.take_of_length_le this]
  | cons name rest ih =>
    have hi : i < s.length := by simp at hs; omega
    rw [writeLoop, ih (i + 1) _ (by simp at hs ⊢; omega), take_succ_set s i _ hi]
    simp

theorem writeRecord_eq_map (header : List String) (record : GoMap) :
    writeRecord header record = header.map record.index := by
  rw [writeRecord, writeLoop_eq _ _ _ _ (by simp)]
  simp

theorem Write_eq {τ ε : Type} (csvw : CsvWriter τ ε) (w : Writer τ) (record : GoMap) :
    Writer.Write csvw w record =
      ((csvw.Write w.w (writeRecord w.header record)).1,
        ⟨(csvw.Write w.w (writeRecord w.header record)).2, w.header⟩) := rfl

/-! ## C3: the record `Write` hands to the sink -/

/-- C3: for every writer header `H` and every mapping `m`, `Write` makes
exactly one call on the underlying sink, a `Write` of a positional record `s`
with `len(s) = len(H)` in which, for every `i < len(H)`, `s[i]` is the value
of `m` for key `H[i]` when that key is present and the empty string when it
is absent; `Write` returns what the sink answers.  Header `[email, name]`
with `{name: John, email: john@example.com, age: 8}` emits
`[john@example.com, John]`. -/
theorem write_emits_header_order {τ ε : Type} (csvw : CsvWriter τ ε) (t : τ)
    (header : List String) (m : GoMap) :
    (∃ s, (Writer.Write csvw.logged ⟨(t, []), header⟩ m).2.w.2 = [SinkCall.Write s] ∧
      (Writer.Write csvw.logged ⟨(t, []), header⟩ m).1 = (csvw.Write t s).1 ∧
      s.length = header.length ∧
      ∀ (i : Nat) (name : String), header[i]? = some name →
        s[i]? = some (match m.lookup name with
          | some v => v
          | none => "")) ∧
    writeRecord ["email", "name"]
      ⟨[("name", "John"), ("email", "john@example.com"), ("age", "8")]⟩ =
      ["john@example.com", "John"] := by
  refine ⟨⟨writeRecord header m, rfl, rfl, ?_, ?_⟩, by decide⟩
  · simp [writeRecord_eq_map]
  · intro i name hi
    rw [writeRecord_eq_map, List.getElem?_map, hi]
    rfl

/-! ## C5: `HasColumn` -/

theorem hasColumnLoop_iff_mem (name : String) (header : List String) :
    hasColumnLoop name header = true ↔ name ∈ header := by
  induction header with
  | nil => simp [hasColumnLoop]
  | cons col rest ih =>
    by_cases h : col = name
    · simp [hasColumnLoop, h]
    · have h' : ¬ name = col := fun e => h e.symm
      simp [hasColumnLoop, h, h', ih]

/-- C5: for every reader header `H` and every string `name`,
`HasColumn(name)` returns true if and only if `name` equals `H[i]` for some
index `i < len(H)`; it returns false for every name when `H` is empty, and
true for a name that occurs more than once in `H`. -/
theorem hasColumn_iff_in_header {σ : Type} (s : σ) (header : List String) (name : String) :
    (Reader.HasColumn ⟨s, header⟩ name = true ↔
      ∃ i, ∃ h : i < header.length, header.get ⟨i, h⟩ = name) ∧
    Reader.HasColumn ⟨s, []⟩ name = false ∧
    ∀ before between after : List String,
      Reader.HasColumn ⟨s, before ++ name :: between ++ name :: after⟩ name = true := by
  refine ⟨?_, rfl, ?_⟩
  · rw [Reader.HasColumn, hasColumnLoop_iff_mem, List.mem_iff_get]
    constructor
    · rintro ⟨⟨i, h⟩, hi⟩
      exact ⟨i, h, hi⟩
    · rintro ⟨i, h, hi⟩
      exact ⟨⟨i, h⟩, hi⟩
  · intro before between after
    rw [Reader.HasColumn, hasColumnLoop_iff_mem]
    simp

/-! ## C8: `NewReader` -/

theorem NewReader_ok {σ ε : Type} (csvr : CsvReader σ ε) (s : σ) (header : List String)
    (h : (csvr.Read s).1 = (header, none)) :
    NewReader csvr s = (Except.ok ⟨(csvr.Read s).2, header⟩, (csvr.Read s).2) := by
  unfold NewReader
  rcases hx : csvr.Read s with ⟨⟨rec, err⟩, s'⟩
  rw [hx] at h
  simp only [Prod.mk.injEq] at h
  obtain ⟨h1, h2⟩ := h
  subst h1 h2
  rfl

theorem NewReader_error {σ ε : Type} (csvr : CsvReader σ ε) (s : σ) (e : ε)
    (h : (csvr.Read s).1.2 = some e) :
    NewReader csvr s = (Except.error e, (csvr.Read s).2) := by
  unfold NewReader
  rcases hx : csvr.Read s with ⟨⟨rec, err⟩, s'⟩
  rw [hx] at h
  simp only at h
  subst h
  rfl

theorem NewReader_snd {σ ε : Type} (csvr : CsvReader σ ε) (s : σ) :
    (NewReader csvr s).2 = (csvr.Read s).2 := by
  unfold NewReader
  rcases csvr.Read s with ⟨⟨rec, err⟩, s'⟩
  cases err <;> rfl

/-- C8: `NewReader` performs exactly one read on the underlying source, which
is left positioned just after that read; if the read fails with error `e`,
`NewReader` returns `e` itself and no `Reader` (on an empty source, the
end-of-stream error); if it succeeds with record `H`, `NewReader` returns a
`Reader` whose `Header()` equals `H` and whose source is the source after
that read. -/
theorem newReader_reads_once {σ ε : Type} (csvr : CsvReader σ ε) (s : σ) (n : Nat) (eof : ε) :
    (NewReader csvr.counted (s, n)).2 = ((csvr.Read s).2, n + 1) ∧
    (∀ e, (csvr.Read s).1.2 = some e →
      (NewReader csvr.counted (s, n)).1 = Except.error e) ∧
    (∀ header, (csvr.Read s).1 = (header, none) →
      ∃ r, (NewReader csvr.counted (s, n)).1 = Except.ok r ∧
        r.Header = header ∧ r.r = ((csvr.Read s).2, n + 1)) ∧
    (NewReader (replaySource eof).counted ([], n)).1 = Except.error eof := by
  refine ⟨?_, ?_, ?_, rfl⟩
  · exact NewReader_snd csvr.counted (s, n)
  · intro e he
    rw [NewReader_error csvr.counted (s, n) e he]
  · intro header hh
    rw [NewReader_ok csvr.counted (s, n) header hh]
    exact ⟨_, rfl, rfl, rfl⟩

/-! ## C9: `Read` fails exactly when the source fails -/

/-- C9: `Read` fails if and only if the read of the underlying source fails:
when that read returns the error `e` (the end-of-stream signal included)
`Read` returns no mapping and exactly `e`, and when it returns a record of
any length, the empty record included, `Read` returns a mapping and no
error: the mapping built from that record and the header as the read of the
source left it. -/
theorem read_fails_iff_source_fails {σ ε : Type} (csvr : CsvReader σ ε) (r : Reader σ)
    (eof : ε) (header : List String) :
    ((∃ e, (Reader.Read csvr r).1 = Except.error e) ↔ ∃ e, (csvr.Read r.r).1.2 = some e) ∧
    (∀ e, (csvr.Read r.r).1.2 = some e → (Reader.Read csvr r).1 = Except.error e) ∧
    (∀ record, (csvr.Read r.r).1 = (record, none) →
      (Reader.Read csvr r).1 = Except.ok (readRecord (csvr.after r.r r.header) record)) ∧
    (Reader.Read (replaySource eof) ⟨[], header⟩).1 = Except.error eof ∧
    (Reader.Read (replaySource eof) ⟨[[]], header⟩).1 = Except.ok ⟨[]⟩ := by
  refine ⟨?_, ?_, ?_, rfl, rfl⟩
  · rcases hx : csvr.Read r.r with ⟨⟨rec, err⟩, s'⟩
    cases err with
    | none =>
      have h := Read_ok csvr r rec (by rw [hx])
      rw [h]
      simp
    | some e =>
      have h := Read_error csvr r e (by rw [hx])
      rw [h]
      simp
  · intro e he
    rw [Read_error csvr r e he]
  · intro record hr
    rw [Read_ok csvr r record hr]

/-! ## C6 and C7: `WriteAll` -/

theorem writeAll_logged_accepts {τ ε : Type} (csvw : CsvWriter τ ε) (header : List String)
    (ms : List GoMap) (t t' : τ) (log : List SinkCall)
    (hacc : csvw.accepts t (ms.map (writeRecord header)) = some t') :
    Writer.WriteAll csvw.logged ⟨(t, log), header⟩ ms =
      ((csvw.Error (csvw.Flush t')).1,
        ⟨((csvw.Error (csvw.Flush t')).2,
          log ++ ms.map (fun m => SinkCall.Write (writeRecord header m)) ++
            [SinkCall.Flush, SinkCall.Error]), header⟩) := by
  induction ms generalizing t log with
  | nil =>
    simp only [List.map_nil, CsvWriter.accepts, Option.some.injEq] at hacc
    subst hacc
    simp [Writer.WriteAll, CsvWriter.logged]
  | cons m ms ih =>
    simp only [List.map_cons, CsvWriter.accepts] at hacc
    rcases hx : csvw.Write t (writeRecord header m) with ⟨err, t1⟩
    rw [hx] at hacc
    cases err with
    | some e => simp at hacc
    | none =>
      simp only at hacc
      have hstep : Writer.Write csvw.logged ⟨(t, log), header⟩ m =
          (none, ⟨(t1, log ++ [SinkCall.Write (writeRecord header m)]), header⟩) := by
        simp [Write_eq, CsvWriter.logged, hx]
      rw [Writer.WriteAll, hstep]
      simp only
      rw [ih t1 _ hacc]
      simp

theorem writeAll_logged_refused {τ ε : Type} (csvw : CsvWriter τ ε) (header : List String)
    (ms : List GoMap) (j : Nat) (m : GoMap) (e : ε) (t t' : τ) (log : List SinkCall)
    (hm : ms[j]? = some m)
    (hacc : csvw.accepts t ((ms.take j).map (writeRecord header)) = some t')
    (hfail : (csvw.Write t' (writeRecord header m)).1 = some e) :
    Writer.WriteAll csvw.logged ⟨(t, log), header⟩ ms =
      (some e,
        ⟨((csvw.Write t' (writeRecord header m)).2,
          log ++ (ms.take (j + 1)).map (fun m => SinkCall.Write (writeRecord header m))),
          header⟩) := by
  induction ms generalizing t log j with
  | nil => simp at hm
  | cons m0 ms ih =>
    cases j with
    | zero =>
      simp only [List.getElem?_cons_zero, Option.some.injEq] at hm
      subst hm
      simp only [List.take_zero, List.map_nil, CsvWriter.accepts, Option.some.injEq] at hacc
      subst hacc
      have hstep : Writer.Write csvw.logged ⟨(t, log), header⟩ m0 =
          (some e, ⟨((csvw.Write t (writeRecord header m0)).2,
            log ++ [SinkCall.Write (writeRecord header m0)]), header⟩) := by
        simp [Write_eq, CsvWriter.logged, hfail]
      rw [Writer.WriteAll, hstep]
      simp
    | succ j =>
      simp only [List.getElem?_cons_succ] at hm
      simp only [List.take_succ_cons, List.map_cons, CsvWriter.accepts] at hacc
      rcases hx : csvw.Write t (writeRecord header m0) with ⟨err, t1⟩
      rw [hx] at hacc
      cases err with
      | some e0 => simp at hacc
      | none =>
        simp only at hacc
        have hstep : Writer.Write csvw.logged ⟨(t, log), header⟩ m0 =
            (none, ⟨(t1, log ++ [SinkCall.Write (writeRecord header m0)]), header⟩) := by
          simp [Write_eq, CsvWriter.logged, hx]
        rw [Writer.WriteAll, hstep]
        simp only
        rw [ih j t1 _ hm hacc]
        simp

/-- C6: for every list of `N` mappings and every sink that accepts the
records of mappings `1..k-1` and refuses the record of mapping `k` with the
error `e` (`1 ≤ k ≤ N`), `WriteAll` makes exactly these calls on the sink, in
this order: the `Write` of the record of each of the mappings `1..k`; it
makes no `Write` for the mappings `k+1..N`, no `Flush`, and returns `e`. -/
theorem writeAll_stops_at_first_failure {τ ε : Type} (csvw : CsvWriter τ ε)
    (header : List String) (ms : List GoMap) (k : Nat) (m : GoMap) (e : ε) (t t' : τ)
    (hk : 1 ≤ k) (hm : ms[k - 1]? = some m)
    (hacc : csvw.accepts t ((ms.take (k - 1)).map (writeRecord header)) = some t')
    (hfail : (csvw.Write t' (writeRecord header m)).1 = some e) :
    (Writer.WriteAll csvw.logged ⟨(t, []), header⟩ ms).1 = some e ∧
    (Writer.WriteAll csvw.logged ⟨(t, []), header⟩ ms).2.w.2 =
      (ms.take k).map (fun m => SinkCall.Write (writeRecord header m)) ∧
    (Writer.WriteAll csvw.logged ⟨(t, []), header⟩ ms).2.w.1 =
      (csvw.Write t' (writeRecord header m)).2 := by
  rw [writeAll_logged_refused csvw header ms (k - 1) m e t t' [] hm hacc hfail]
  have : k - 1 + 1 = k := by omega
  simp [this]

/-- Three mappings written to a sink that refuses its second record: the sink
is handed the records of the first two mappings and nothing else. -/
theorem writeAll_stops_at_first_failure_witness :
    (Writer.WriteAll (failingSink 2 "disk full").logged ⟨(0, []), ["a"]⟩
        [⟨[("a", "1")]⟩, ⟨[("a", "2")]⟩, ⟨[("a", "3")]⟩]).1 = some "disk full" ∧
    (Writer.WriteAll (failingSink 2 "disk full").logged ⟨(0, []), ["a"]⟩
        [⟨[("a", "1")]⟩, ⟨[("a", "2")]⟩, ⟨[("a", "3")]⟩]).2.w.2 =
      [SinkCall.Write ["1"], SinkCall.Write ["2"]] :=
  have h := writeAll_stops_at_first_failure (failingSink 2 "disk full") ["a"]
    [⟨[("a", "1")]⟩, ⟨[("a", "2")]⟩, ⟨[("a", "3")]⟩] 2 ⟨[("a", "2")]⟩ "disk full" 0 1
    (by decide) rfl rfl rfl
  ⟨h.1, h.2.1⟩

/-- C7: for every list of mappings, the empty list included, if every record
write of `WriteAll` succeeds, then after the record writes `WriteAll` makes
exactly two more calls on the sink, one `Flush` followed by one `Error`, and
returns exactly what `Error` reports for that flush: `nil` when the flush
succeeded, the flush error when it failed. -/
theorem writeAll_flushes_once {τ ε : Type} (csvw : CsvWriter τ ε)
    (header : List String) (ms : List GoMap) (t t' : τ)
    (hacc : csvw.accepts t (ms.map (writeRecord header)) = some t') :
    (Writer.WriteAll csvw.logged ⟨(t, []), header⟩ ms).2.w.2 =
      ms.map (fun m => SinkCall.Write (writeRecord header m)) ++
        [SinkCall.Flush, SinkCall.Error] ∧
    (Writer.WriteAll csvw.logged ⟨(t, []), header⟩ ms).1 = (csvw.Error (csvw.Flush t')).1 ∧
    (Writer.WriteAll csvw.logged ⟨(t, []), header⟩ ms).2.w.1 =
      (csvw.Error (csvw.Flush t')).2 := by
  rw [writeAll_logged_accepts csvw header ms t t' [] hacc]
  simp

/-- No mappings and one mapping written to a sink whose flush fails: one
flush each time, and its error is returned. -/
theorem writeAll_flushes_once_witness :
    ((Writer.WriteAll (flushFailingSink "broken pipe").logged ⟨(false, []), ["a"]⟩ []).2.w.2 =
        [SinkCall.Flush, SinkCall.Error] ∧
      (Writer.WriteAll (flushFailingSink "broken pipe").logged ⟨(false, []), ["a"]⟩ []).1 =
        some "broken pipe") ∧
    (Writer.WriteAll (collectSink : CsvWriter _ String).logged ⟨([], []), ["a"]⟩
        [⟨[("a", "1")]⟩]).1 = none :=
  have h1 := writeAll_flushes_once (flushFailingSink "broken pipe") ["a"] [] false false rfl
  have h2 := writeAll_flushes_once (collectSink : CsvWriter _ String) ["a"]
    [⟨[("a", "1")]⟩] [] [["1"]] rfl
  ⟨⟨h1.1, h1.2.1⟩, h2.2.1⟩

/-! ## C10: reading a whole source -/

theorem readN_yields {σ ε : Type} (csvr : CsvReader σ ε) (e : ε) (header : List String)
    (records : List (List String)) (s : σ) (hy : csvr.yields e header s records) :
    (Reader.readN csvr (records.length + 1) ⟨s, header⟩).1 =
      records.map (fun record => Except.ok (readRecord header record)) ++ [Except.error e] := by
  induction records generalizing s with
  | nil =>
    simp only [CsvReader.yields] at hy
    simp [Reader.readN, Read_error csvr ⟨s, header⟩ e hy]
  | cons record rest ih =>
    simp only [CsvReader.yields] at hy
    obtain ⟨h1, hk, h2⟩ := hy
    rw [List.length_cons, Reader.readN, Read_keep csvr ⟨s, header⟩ record h1 hk]
    simp only [List.map_cons, List.cons_append]
    rw [ih _ h2]

/-- When the reads of the source leave the content of the header slice as it
is, a source that yields a record `H`, then records `R_1..R_n`, then
end-of-stream is read as C10 says: `NewReader` succeeds with header `H`, and
of the next `n + 1` calls to `Read` the `k`-th returns the mapping built from
`H` and `R_k` alone, and the `(n+1)`-th returns the end-of-stream signal. -/
theorem reads_follow_source_order_kept_header {σ ε : Type} (csvr : CsvReader σ ε) (eof : ε)
    (s : σ) (header : List String) (records : List (List String))
    (hfirst : (csvr.Read s).1 = (header, none))
    (hy : csvr.yields eof header (csvr.Read s).2 records) :
    ∃ r, (NewReader csvr s).1 = Except.ok r ∧ r.Header = header ∧
      (Reader.readN csvr (records.length + 1) r).1 =
        records.map (fun record => Except.ok (readRecord header record)) ++
          [Except.error eof] := by
  refine ⟨⟨(csvr.Read s).2, header⟩, ?_, rfl, ?_⟩
  · rw [NewReader_ok csvr s header hfirst]
  · exact readN_yields csvr eof header records _ hy

/-- C10 (the code at the failing input): a `*csv.Reader` with `ReuseRecord`
set over the text `name,age / John,8 / Jane,12` yields `[name, age]`, then
`[John, 8]`, then `[Jane, 12]`, then end-of-stream.  `NewReader` succeeds
with header `[name, age]`, but each read of the library stores the record
into the header slice before the loop of `Read` runs: the first `Read`
returns `{John: John, 8: 8}` and the second `{Jane: Jane, 12: 12}`, not the
mappings `{name: John, age: 8}` and `{name: Jane, age: 12}` built from `H`
and `R_k`. -/
theorem reads_with_reused_buffer :
    ∃ r, (NewReader (reuseSource "EOF")
        ([["name", "age"], ["John", "8"], ["Jane", "12"]], Backing.unread 0)).1 = Except.ok r ∧
      r.Header = ["name", "age"] ∧
      (Reader.readN (reuseSource "EOF") 3 r).1 =
        [Except.ok ⟨[("John", "John"), ("8", "8")]⟩,
          Except.ok ⟨[("Jane", "Jane"), ("12", "12")]⟩,
          Except.error "EOF"] ∧
      readRecord ["name", "age"] ["John", "8"] = ⟨[("name", "John"), ("age", "8")]⟩ ∧
      readRecord ["name", "age"] ["Jane", "12"] = ⟨[("name", "Jane"), ("age", "12")]⟩ :=
  ⟨⟨([["John", "8"], ["Jane", "12"]], Backing.shared 2), ["name", "age"]⟩,
    rfl, rfl, rfl, rfl, rfl⟩

/-! ## C4: round trip -/

theorem writeAll_collectSink {ε : Type} (header : List String) (ms : List GoMap)
    (t : List (List String)) :
    Writer.WriteAll (collectSink : CsvWriter _ ε) ⟨t, header⟩ ms =
      (none, ⟨t ++ ms.map (writeRecord header), header⟩) := by
  induction ms generalizing t with
  | nil => simp [Writer.WriteAll, collectSink]
  | cons m ms ih =>
    have hstep : Writer.Write (collectSink : CsvWriter _ ε) ⟨t, header⟩ m =
        (none, ⟨t ++ [writeRecord header m], header⟩) := rfl
    rw [Writer.WriteAll, hstep]
    simp only
    rw [ih]
    simp

theorem readN_replaySource {ε : Type} (eof : ε) (header : List String)
    (records : List (List String)) :
    (Reader.readN (replaySource eof) records.length ⟨records, header⟩).1 =
      records.map (fun record => Except.ok (readRecord header record)) := by
  induction records with
  | nil => rfl
  | cons record rest ih =>
    rw [List.length_cons, Reader.readN, List.map_cons]
    have hstep : Reader.Read (replaySource eof) ⟨record :: rest, header⟩ =
        (Except.ok (readRecord header record), ⟨rest, header⟩) :=
      Read_keep (replaySource eof) ⟨record :: rest, header⟩ record rfl
        (after_replaySource eof _ header)
    rw [hstep, ih]

theorem lookup_assignAll_zip_map (out : GoMap) (header : List String) (f : String → String)
    (c : String) (hc : c ∈ header) :
    (assignAll out (header.zip (header.map f))).lookup c = some (f c) := by
  induction header generalizing out with
  | nil => simp at hc
  | cons a rest ih =>
    have hstep : assignAll out ((a :: rest).zip ((a :: rest).map f)) =
        assignAll (out.assign a (f a)) (rest.zip (rest.map f)) := rfl
    rw [hstep]
    by_cases hmem : c ∈ rest
    · exact ih _ hmem
    · have hca : c = a := by
        rcases List.mem_cons.mp hc with h | h
        · exact h
        · exact absurd h hmem
      subst hca
      rw [lookup_assignAll_of_not_mem, lookup_assign, if_pos rfl]
      intro p hp heq
      apply hmem
      have := (List.of_mem_zip hp).1
      rwa [heq] at this

theorem index_readRecord_writeRecord (header : List String) (m : GoMap) (c : String)
    (hc : c ∈ header) :
    (readRecord header (writeRecord header m)).index c = m.index c := by
  have h : (readRecord header (writeRecord header m)).lookup c = some (m.index c) := by
    rw [readRecord_eq_assignAll, writeRecord_eq_map]
    exact lookup_assignAll_zip_map _ header m.index c hc
  rw [GoMap.index, h]

/-- C4 (round trip): for every header `H` and every list of mappings
`m_1..m_n`, if the records a `Writer` with header `H` hands to an
always-succeeding sink during `WriteHeader` followed by `WriteAll` are
replayed unchanged as the source of `NewReader`, then `NewReader` succeeds
with `Header() = H`, each of the next `n` calls to `Read` succeeds, and for
every column name `c` occurring in `H` the value looked up under `c` in the
`k`-th mapping read equals the value looked up under `c` in `m_k` (the empty
string when `m_k` has no entry for `c`). -/
theorem write_then_read_round_trip {ε : Type} (eof : ε) (header : List String)
    (ms : List GoMap) :
    ∃ r, (NewReader (replaySource eof)
        (Writer.WriteAll (collectSink : CsvWriter _ ε)
          (Writer.WriteHeader (collectSink : CsvWriter _ ε) (NewWriter [] header)).2 ms).2.w).1 =
        Except.ok r ∧
      r.Header = header ∧
      ∃ outs : List GoMap,
        (Reader.readN (replaySource eof) ms.length r).1 = outs.map Except.ok ∧
        outs.length = ms.length ∧
        ∀ (k : Nat) (out m : GoMap) (c : String), outs[k]? = some out → ms[k]? = some m →
          c ∈ header → out.index c = m.index c := by
  have hw : (Writer.WriteAll (collectSink : CsvWriter _ ε)
      (Writer.WriteHeader (collectSink : CsvWriter _ ε) (NewWriter [] header)).2 ms).2.w =
      header :: ms.map (writeRecord header) := by
    have h0 : (Writer.WriteHeader (collectSink : CsvWriter _ ε) (NewWriter [] header)).2 =
        ⟨[header], header⟩ := rfl
    rw [h0, writeAll_collectSink]
    simp
  rw [hw]
  refine ⟨⟨ms.map (writeRecord header), header⟩, rfl, rfl,
    ms.map (fun m => readRecord header (writeRecord header m)), ?_, by simp, ?_⟩
  · rw [← List.length_map ms (writeRecord header), readN_replaySource, List.map_map, List.map_map]
    rfl
  · intro k out m c hout hm hc
    rw [List.getElem?_map, hm] at hout
    simp only [Option.map_some', Option.some.injEq] at hout
    subst hout
    exact index_readRecord_writeRecord header m c hc

/-! ## C11: the records a sink receives -/

/-- C11: for every writer header `H` and every list of mappings `m_1..m_n`,
on a sink that accepts every write, `WriteHeader` followed by `WriteAll`
makes the sink receive exactly `n + 1` positional records in this order: `H`
itself as a single record, then the record `Write` produces for `m_1`, ...,
then the record `Write` produces for `m_n`; the only further calls are the
closing `Flush` and `Error`. -/
theorem writeHeader_writeAll_records {τ ε : Type} (csvw : CsvWriter τ ε)
    (header : List String) (ms : List GoMap) (t t' : τ)
    (hacc : csvw.accepts t (header :: ms.map (writeRecord header)) = some t') :
    (Writer.WriteHeader csvw.logged (NewWriter (t, []) header)).1 = none ∧
    (Writer.WriteAll csvw.logged
        (Writer.WriteHeader csvw.logged (NewWriter (t, []) header)).2 ms).2.w.2 =
      (header :: ms.map (writeRecord header)).map SinkCall.Write ++
        [SinkCall.Flush, SinkCall.Error] ∧
    (header :: ms.map (writeRecord header)).length = ms.length + 1 := by
  simp only [CsvWriter.accepts] at hacc
  rcases hx : csvw.Write t header with ⟨err, t1⟩
  rw [hx] at hacc
  cases err with
  | some e => simp at hacc
  | none =>
    simp only at hacc
    have hstep : Writer.WriteHeader csvw.logged (NewWriter (t, []) header) =
        (none, ⟨(t1, [SinkCall.Write header]), header⟩) := by
      simp [Writer.WriteHeader, NewWriter, CsvWriter.logged, hx]
    rw [hstep]
    refine ⟨rfl, ?_, by simp⟩
    simp only
    rw [writeAll_logged_accepts csvw header ms t1 t' _ hacc]
    simp [Function.comp_def]

/-- The example of the package: header `[email, name]` and the two records
of John and Marie. -/
theorem writeHeader_writeAll_records_witness :
    (Writer.WriteAll (collectSink : CsvWriter _ String).logged
        (Writer.WriteHeader (collectSink : CsvWriter _ String).logged
          (NewWriter ([], []) ["email", "name"])).2
        [⟨[("name", "John"), ("email", "john@example.com"), ("age", "8")]⟩,
          ⟨[("name", "Marie"), ("email", "marie@example.com"), ("age", "6")]⟩]).2.w.2 =
      [SinkCall.Write ["email", "name"], SinkCall.Write ["john@example.com", "John"],
        SinkCall.Write ["marie@example.com", "Marie"], SinkCall.Flush, SinkCall.Error] :=
  (writeHeader_writeAll_records (collectSink : CsvWriter _ String) ["email", "name"]
    [⟨[("name", "John"), ("email", "john@example.com"), ("age", "8")]⟩,
      ⟨[("name", "Marie"), ("email", "marie@example.com"), ("age", "6")]⟩] []
    [["email", "name"], ["john@example.com", "John"], ["marie@example.com", "Marie"]]
    rfl).2.1

/-! ## C12: keys outside the header do not matter -/

theorem index_eq_of_lookup_eq (m m' : GoMap) (c : String) (h : m.lookup c = m'.lookup c) :
    m.index c = m'.index c := by
  simp [GoMap.index, h]

theorem writeRecord_congr (header : List String) (m m' : GoMap)
    (h : ∀ c ∈ header, m.lookup c = m'.lookup c) :
    writeRecord header m = writeRecord header m' := by
  rw [writeRecord_eq_map, writeRecord_eq_map]
  exact List.map_congr_left (fun c hc => index_eq_of_lookup_eq m m' c (h c hc))

/-- C12: for every writer header `H` and every two mappings `m` and `m'`
that agree on every key occurring in `H` (same presence and same value),
`Write` makes the same call on the sink for `m` as for `m'`, with the same
positional record, and returns the same result; in particular assigning to a
key that is not in `H` changes neither the emitted record nor the result. -/
theorem write_ignores_other_keys {τ ε : Type} (csvw : CsvWriter τ ε) (t : τ)
    (log : List SinkCall) (header : List String) (m m' : GoMap)
    (h : ∀ c ∈ header, m.lookup c = m'.lookup c) :
    writeRecord header m = writeRecord header m' ∧
    Writer.Write csvw.logged ⟨(t, log), header⟩ m =
      Writer.Write csvw.logged ⟨(t, log), header⟩ m' ∧
    ∀ k v : String, k ∉ header →
      Writer.Write csvw.logged ⟨(t, log), header⟩ (m.assign k v) =
        Writer.Write csvw.logged ⟨(t, log), header⟩ m := by
  refine ⟨writeRecord_congr header m m' h, ?_, ?_⟩
  · rw [Write_eq, Write_eq]
    simp only [writeRecord_congr header m m' h]
  · intro k v hk
    have hagree : ∀ c ∈ header, (m.assign k v).lookup c = m.lookup c := by
      intro c hc
      rw [lookup_assign, if_neg]
      intro hkc
      exact hk (hkc ▸ hc)
    rw [Write_eq, Write_eq]
    simp only [writeRecord_congr header _ m hagree]

/-- Header `[email, name]`: the mapping with an `age` entry and the mapping
without one are written as the same record. -/
theorem write_ignores_other_keys_witness :
    writeRecord ["email", "name"]
        ⟨[("name", "John"), ("email", "john@example.com"), ("age", "8")]⟩ =
      writeRecord ["email", "name"] ⟨[("email", "john@example.com"), ("name", "John")]⟩ ∧
    Writer.Write (failingSink 1 "disk full").logged ⟨(0, []), ["email", "name"]⟩
        ⟨[("name", "John"), ("email", "john@example.com"), ("age", "8")]⟩ =
      Writer.Write (failingSink 1 "disk full").logged ⟨(0, []), ["email", "name"]⟩
        ⟨[("email", "john@example.com"), ("name", "John")]⟩ :=
  have h := write_ignores_other_keys (failingSink 1 "disk full") 0 [] ["email", "name"]
    ⟨[("name", "John"), ("email", "john@example.com"), ("age", "8")]⟩
    ⟨[("email", "john@example.com"), ("name", "John")]⟩ (by decide)
  ⟨h.1, h.2.1⟩

/-! ## C13: the last occurrence of a name wins -/

theorem exists_last_occurrence (l : List (String × String)) (c : String)
    (hc : c ∈ l.map Prod.fst) :
    ∃ (j : Nat) (v : String), l[j]? = some (c, v) ∧
      ∀ (j' : Nat) (p : String × String), j < j' → l[j']? = some p → p.1 ≠ c := by
  induction l with
  | nil => simp at hc
  | cons p rest ih =>
    by_cases hmem : c ∈ rest.map Prod.fst
    · obtain ⟨j, v, hj, hlast⟩ := ih hmem
      refine ⟨j + 1, v, by simpa using hj, ?_⟩
      intro j' q hlt hq
      cases j' with
      | zero => omega
      | succ j' => exact hlast j' q (by omega) (by simpa using hq)
    · have hp : c = p.1 := by
        rcases List.mem_cons.mp hc with h | h
        · exact h
        · exact absurd h hmem
      refine ⟨0, p.2, by simp [hp], ?_⟩
      intro j' q hlt hq heq
      cases j' with
      | zero => omega
      | succ j' =>
        apply hmem
        have hq' : rest[j']? = some q := by simpa using hq
        rw [← heq]
        exact List.mem_map_of_mem Prod.fst (List.getElem?_mem hq')

/-- When the read of the source leaves the content of the header slice as it
is, the last occurrence of a name wins, as C13 says: for every name `c` that
occurs among the first `min(len(H), len(R))` header positions there is a
largest index `j` below `min(len(H), len(R))` with `H[j] = c`, and the
mapping returned by `Read` sends `c` to `R[j]`. -/
theorem read_last_occurrence_wins_kept_header {σ ε : Type} (csvr : CsvReader σ ε)
    (r : Reader σ) (record : List String) (c : String)
    (hsrc : (csvr.Read r.r).1 = (record, none))
    (hkeep : csvr.after r.r r.header = r.header)
    (hc : ∃ i, i < r.header.length ∧ i < record.length ∧ r.header[i]? = some c) :
    ∃ m j field, (Reader.Read csvr r).1 = Except.ok m ∧
      j < r.header.length ∧ j < record.length ∧ r.header[j]? = some c ∧
      (∀ j', j < j' → j' < r.header.length → j' < record.length → r.header[j']? ≠ some c) ∧
      record[j]? = some field ∧ m.lookup c = some field := by
  obtain ⟨i, hiH, hiR, hi⟩ := hc
  have hmem : c ∈ (r.header.zip record).map Prod.fst := by
    rw [map_fst_zip_eq_take]
    exact List.getElem?_mem (by rw [List.getElem?_take_of_lt hiR]; exact hi)
  obtain ⟨j, v, hj, hlast⟩ := exists_last_occurrence _ c hmem
  rw [List.getElem?_zip_eq_some] at hj
  obtain ⟨hjH, hjR⟩ := hj
  simp only at hjH hjR
  have hjH' : j < r.header.length := (List.getElem?_eq_some_iff.mp hjH).1
  have hjR' : j < record.length := (List.getElem?_eq_some_iff.mp hjR).1
  have hlast' : ∀ j', j < j' → j' < record.length → r.header[j']? ≠ some c := by
    intro j' hlt hR hH
    obtain ⟨f, hf⟩ : ∃ f, record[j']? = some f :=
      ⟨record[j'], List.getElem?_eq_getElem hR⟩
    exact hlast j' (c, f) hlt (by rw [List.getElem?_zip_eq_some]; exact ⟨hH, hf⟩) rfl
  refine ⟨readRecord r.header record, j, v, ?_, hjH', hjR', hjH, ?_, hjR, ?_⟩
  · rw [Read_keep csvr r record hsrc hkeep]
  · intro j' hlt _ hR
    exact hlast' j' hlt hR
  · exact lookup_readRecord_last r.header record j c v hjH hjR hlast'

/-- C13 (the code at the failing input): a `*csv.Reader` with `ReuseRecord`
set yields `[a, b, a]`, taken as the header by `NewReader`, and then
`[x, y, z]`.  The library stores the record into the header slice before the
loop of `Read` runs, so `Read` returns `{x: x, y: y, z: z}`: the name `a`,
whose last occurrence is at index 2, is not sent to `R[2] = z`; the mapping
has no entry for it. -/
theorem read_last_occurrence_reused :
    ∃ r m, (NewReader (reuseSource "EOF")
        ([["a", "b", "a"], ["x", "y", "z"]], Backing.unread 0)).1 = Except.ok r ∧
      r.Header = ["a", "b", "a"] ∧
      (Reader.Read (reuseSource "EOF") r).1 = Except.ok m ∧
      m = ⟨[("x", "x"), ("y", "y"), ("z", "z")]⟩ ∧
      m.lookup "a" = none ∧ m.lookup "a" ≠ some "z" :=
  ⟨⟨([["x", "y", "z"]], Backing.shared 3), ["a", "b", "a"]⟩,
    ⟨[("x", "x"), ("y", "y"), ("z", "z")]⟩, rfl, rfl, rfl, rfl, by decide, by decide⟩

/-! ## C14: missing data on read and on write -/

theorem lookup_eq_none_of_not_mem_keys (m : GoMap) (c : String) (h : c ∉ m.keys) :
    m.lookup c = none := by
  rw [mem_keys_iff_lookup] at h
  cases hl : m.lookup c with
  | none => rfl
  | some v => exact absurd ⟨v, hl⟩ h

/-- C14, as stated, fails for a header with a repeated name: with header
`["a", "a"]` and record `["x"]` the mapping returned by `Read` has the entry
`"a": "x"`, an entry for the header column `H[1] = "a"` at a position past
the end of the record. -/
theorem read_short_record_no_entry_counterexample :
    ¬ (∀ (header record : List String) (i : Nat) (name : String),
        record.length < header.length → record.length ≤ i → header[i]? = some name →
        ∃ m, (Reader.Read (replaySource "EOF") ⟨[record], header⟩).1 = Except.ok m ∧
          m.lookup name = none) := by
  intro h
  obtain ⟨m, hm, hl⟩ := h ["a", "a"] ["x"] 1 "a" (by decide) (by decide) rfl
  have hm' : m = readRecord ["a", "a"] ["x"] := by
    have : (Except.ok (readRecord ["a", "a"] ["x"]) : Except String GoMap) = Except.ok m := hm
    injection this with this
    exact this.symm
  subst hm'
  revert hl
  decide

/-- C14 (amended): for every header `H` and every record `R` with
`len(R) < len(H)`, when the read of the source leaves the content of the
header slice as it is, the mapping returned by `Read` has no entry (not even
an empty-string entry) for the header column `H[i]` at any position `i` with
`len(R) ≤ i < len(H)` whose name does not also occur among the first `len(R)`
header positions; whereas for every mapping `m` lacking key `H[i]`, `Write`
emits the empty string at output position `i`. -/
theorem read_omits_write_fills {σ τ ε : Type} (csvr : CsvReader σ ε) (r : Reader σ)
    (record : List String) (csvw : CsvWriter τ ε) (t : τ) (m : GoMap)
    (hlen : record.length < r.header.length)
    (hsrc : (csvr.Read r.r).1 = (record, none))
    (hkeep : csvr.after r.r r.header = r.header) :
    (∃ out, (Reader.Read csvr r).1 = Except.ok out ∧
      ∀ (i : Nat) (name : String), record.length ≤ i → r.header[i]? = some name →
        name ∉ r.header.take record.length →
        name ∉ out.keys ∧ out.lookup name = none) ∧
    ∃ s, (Writer.Write csvw.logged ⟨(t, []), r.header⟩ m).2.w.2 = [SinkCall.Write s] ∧
      ∀ (i : Nat) (name : String), r.header[i]? = some name → m.lookup name = none →
        s[i]? = some "" := by
  refine ⟨⟨readRecord r.header record, ?_, ?_⟩, writeRecord r.header m, rfl, ?_⟩
  · rw [Read_keep csvr r record hsrc hkeep]
  · intro i name _ _ hnot
    have hk : name ∉ (readRecord r.header record).keys := by
      rw [mem_keys_readRecord]
      exact hnot
    exact ⟨hk, lookup_eq_none_of_not_mem_keys _ _ hk⟩
  · intro i name hi hnone
    rw [writeRecord_eq_map, List.getElem?_map, hi]
    simp [GoMap.index, hnone]

/-- Header `[name, age]`: the record `[John]` reads as a mapping without an
`age` entry, and that mapping is written back as `[John, ""]`. -/
theorem read_omits_write_fills_witness :
    (∃ out, (Reader.Read (replaySource "EOF") ⟨[["John"]], ["name", "age"]⟩).1 =
        Except.ok out ∧ "age" ∉ out.keys ∧ out.lookup "age" = none) ∧
    ∃ s, (Writer.Write (collectSink : CsvWriter _ String).logged ⟨([], []), ["name", "age"]⟩
        ⟨[("name", "John")]⟩).2.w.2 = [SinkCall.Write s] ∧ s[1]? = some "" := by
  obtain ⟨⟨out, hout, hno⟩, s, hs, hfill⟩ :=
    read_omits_write_fills (replaySource "EOF") ⟨[["John"]], ["name", "age"]⟩ ["John"]
      (collectSink : CsvWriter _ String) [] ⟨[("name", "John")]⟩ (by decide) rfl rfl
  have h1 := hno 1 "age" (by decide) rfl (by decide)
  exact ⟨⟨out, hout, h1.1, h1.2⟩, s, hs, hfill 1 "age" rfl rfl⟩

/-! ## C19: `HasColumn` and the keys of a mapping read -/

/-- When the read of the source leaves the content of the header slice as it
is, `HasColumn` agrees with the keys `Read` produces, as C19 says: if `c` is
a key of the mapping returned by `Read` then `HasColumn(c)` is true, and when
`len(R) ≥ len(H)` the converse also holds. -/
theorem hasColumn_agrees_with_read_keys_kept_header {σ ε : Type} (csvr : CsvReader σ ε)
    (r : Reader σ) (record : List String) (c : String)
    (hsrc : (csvr.Read r.r).1 = (record, none))
    (hkeep : csvr.after r.r r.header = r.header) :
    ∃ m, (Reader.Read csvr r).1 = Except.ok m ∧
      (c ∈ m.keys → r.HasColumn c = true) ∧
      (r.header.length ≤ record.length → (r.HasColumn c = true ↔ c ∈ m.keys)) := by
  refine ⟨readRecord r.header record, ?_, ?_, ?_⟩
  · rw [Read_keep csvr r record hsrc hkeep]
  · intro hc
    rw [mem_keys_readRecord] at hc
    rw [Reader.HasColumn, hasColumnLoop_iff_mem]
    exact List.mem_of_mem_take hc
  · intro hlen
    rw [Reader.HasColumn, hasColumnLoop_iff_mem, mem_keys_readRecord,
      List.take_of_length_le hlen]

/-- C19 (the code at the failing input): a `*csv.Reader` with `ReuseRecord`
set over the text `name,age / John,8`.  For the reader `NewReader` returns,
`HasColumn("name")` is true and `HasColumn("John")` is false, but the mapping
its `Read` returns is `{John: John, 8: 8}`: `John` is a key that is no
column, and with `len(R) = len(H)` the column `name` is no key. -/
theorem hasColumn_and_read_keys_reused :
    ∃ r m, (NewReader (reuseSource "EOF")
        ([["name", "age"], ["John", "8"]], Backing.unread 0)).1 = Except.ok r ∧
      r.Header = ["name", "age"] ∧
      (Reader.Read (reuseSource "EOF") r).1 = Except.ok m ∧
      m = ⟨[("John", "John"), ("8", "8")]⟩ ∧
      "John" ∈ m.keys ∧ r.HasColumn "John" = false ∧
      r.HasColumn "name" = true ∧ "name" ∉ m.keys :=
  ⟨⟨([["John", "8"]], Backing.shared 2), ["name", "age"]⟩,
    ⟨[("John", "John"), ("8", "8")]⟩, rfl, rfl, rfl, rfl,
    by decide, by decide, by decide, by decide⟩

/-! ## C15: the header never changes -/

theorem Read_header {σ ε : Type} (csvr : CsvReader σ ε) (r : Reader σ) :
    (Reader.Read csvr r).2.header = csvr.after r.r r.header := by
  unfold Reader.Read
  rcases csvr.Read r.r with ⟨⟨rec, err⟩, s'⟩
  cases err <;> rfl

theorem after_of_no_reuse {σ ε : Type} (csvr : CsvReader σ ε)
    (hnew : ∀ s i, csvr.Reuse s i = none) (s : σ) (held : List String) :
    csvr.after s held = held := by
  have hf : csvr.Reuse s = fun _ => none := funext (hnew s)
  rw [CsvReader.after, hf]
  exact storeLoop_none 0 held

theorem WriteAll_header {τ ε : Type} (csvw : CsvWriter τ ε) (w : Writer τ) (ms : List GoMap) :
    (Writer.WriteAll csvw w ms).2.header = w.header := by
  induction ms generalizing w with
  | nil => rfl
  | cons m ms ih =>
    rw [Writer.WriteAll]
    rcases hx : Writer.Write csvw w m with ⟨err, w'⟩
    have hw : w'.header = w.header := by
      have : (Writer.Write csvw w m).2.header = w.header := rfl
      rw [hx] at this
      exact this
    cases err with
    | some e => exact hw
    | none =>
      simp only
      rw [ih w', hw]

theorem Reader_call_header {σ ε : Type} (csvr : CsvReader σ ε)
    (hnew : ∀ s i, csvr.Reuse s i = none) (r : Reader σ) (c : ReaderCall) :
    (Reader.call csvr r c).header = r.header := by
  cases c with
  | Header => rfl
  | HasColumn name => rfl
  | Read => exact (Read_header csvr r).trans (after_of_no_reuse csvr hnew _ _)

theorem Writer_call_header {τ ε : Type} (csvw : CsvWriter τ ε) (w : Writer τ) (c : WriterCall) :
    (Writer.call csvw w c).header = w.header := by
  cases c with
  | WriteHeader => rfl
  | Write record => rfl
  | WriteAll records => exact WriteAll_header csvw w records

theorem Reader_calls_header {σ ε : Type} (csvr : CsvReader σ ε)
    (hnew : ∀ s i, csvr.Reuse s i = none) (r : Reader σ)
    (cs : List ReaderCall) : (Reader.calls csvr r cs).header = r.header := by
  induction cs generalizing r with
  | nil => rfl
  | cons c cs ih =>
    have hstep : Reader.calls csvr r (c :: cs) = Reader.calls csvr (Reader.call csvr r c) cs := rfl
    rw [hstep, ih, Reader_call_header csvr hnew]

theorem Writer_calls_header {τ ε : Type} (csvw : CsvWriter τ ε) (w : Writer τ)
    (cs : List WriterCall) : (Writer.calls csvw w cs).header = w.header := by
  induction cs generalizing w with
  | nil => rfl
  | cons c cs ih =>
    have hstep : Writer.calls csvw w (c :: cs) = Writer.calls csvw (Writer.call csvw w c) cs := rfl
    rw [hstep, ih, Writer_call_header]

/-- For a source that never stores into a slice it returned, and for every
sink, the header is an invariant as C15 says: after any sequence of `Header`,
`HasColumn` and `Read` calls `Header()` is the first record the source
yielded at construction, and after any sequence of `WriteHeader`, `Write` and
`WriteAll` calls the header of the writer is the one given to `NewWriter`. -/
theorem header_never_changes_without_reuse {σ τ ε : Type} (csvr : CsvReader σ ε) (s : σ)
    (first : List String) (rcalls : List ReaderCall)
    (csvw : CsvWriter τ ε) (t : τ) (header : List String) (wcalls : List WriterCall)
    (hnew : ∀ s i, csvr.Reuse s i = none)
    (hsrc : (csvr.Read s).1 = (first, none)) :
    (∃ r, (NewReader csvr s).1 = Except.ok r ∧
      (Reader.calls csvr r rcalls).Header = first) ∧
    (Writer.calls csvw (NewWriter t header) wcalls).header = header := by
  refine ⟨⟨⟨(csvr.Read s).2, first⟩, ?_, ?_⟩, ?_⟩
  · rw [NewReader_ok csvr s first hsrc]
  · rw [Reader.Header, Reader_calls_header csvr hnew]
  · rw [Writer_calls_header]
    rfl

/-- C15 (the code at the failing input): a `*csv.Reader` with `ReuseRecord`
set over the text `name,age / John,8 / Jane,12`.  `NewReader` succeeds and
`Header()` is `[name, age]`, the first record; `NewReader` kept the slice of
the library without copying it, so after one `Read` `Header()` is
`[John, 8]`, and after a second one `[Jane, 12]`. -/
theorem header_overwritten_by_read :
    ∃ r, (NewReader (reuseSource "EOF")
        ([["name", "age"], ["John", "8"], ["Jane", "12"]], Backing.unread 0)).1 = Except.ok r ∧
      r.Header = ["name", "age"] ∧
      (Reader.calls (reuseSource "EOF") r [ReaderCall.Read]).Header = ["John", "8"] ∧
      (Reader.calls (reuseSource "EOF") r
        [ReaderCall.Read, ReaderCall.HasColumn "age", ReaderCall.Read]).Header =
        ["Jane", "12"] :=
  ⟨⟨([["John", "8"], ["Jane", "12"]], Backing.shared 2), ["name", "age"]⟩,
    rfl, rfl, rfl, rfl⟩

/-! ## C16: calls on the collaborator per operation -/

theorem writeAll_logged_length {τ ε : Type} (csvw : CsvWriter τ ε) (header : List String)
    (ms : List GoMap) (t : τ) (log : List SinkCall) :
    ∃ calls, (Writer.WriteAll csvw.logged ⟨(t, log), header⟩ ms).2.w.2 = log ++ calls ∧
      calls.length ≤ ms.length + 2 := by
  induction ms generalizing t log with
  | nil => exact ⟨[SinkCall.Flush, SinkCall.Error], by simp [Writer.WriteAll, CsvWriter.logged], by simp⟩
  | cons m ms ih =>
    rw [Writer.WriteAll, Write_eq]
    rcases hx : (csvw.logged.Write (t, log) (writeRecord header m)) with ⟨err, t1, log1⟩
    have hlog : log1 = log ++ [SinkCall.Write (writeRecord header m)] := by
      have : (csvw.logged.Write (t, log) (writeRecord header m)).2.2 =
          log ++ [SinkCall.Write (writeRecord header m)] := rfl
      rw [hx] at this
      exact this
    subst hlog
    cases err with
    | some e => exact ⟨[SinkCall.Write (writeRecord header m)], rfl, by simp⟩
    | none =>
      obtain ⟨calls, hc, hl⟩ := ih t1 (log ++ [SinkCall.Write (writeRecord header m)])
      refine ⟨SinkCall.Write (writeRecord header m) :: calls, ?_, by simp; omega⟩
      simp only
      rw [hc]
      simp

/-- C16, as stated, fails for `WriteAll`: with two mappings on a sink that
accepts every record it makes four calls on the sink, two `Write` calls, one
`Flush` and one `Error`. -/
theorem writeAll_one_call_counterexample :
    ¬ (∀ ms : List GoMap,
        (Writer.WriteAll (collectSink : CsvWriter _ String).logged
          ⟨([], []), ["a"]⟩ ms).2.w.2.length ≤ 1) := by
  intro h
  have h2 := h [⟨[("a", "1")]⟩, ⟨[("a", "2")]⟩]
  revert h2
  decide

/-- C16 (amended): every operation of the two components other than
`WriteAll` (`NewReader`, `Header`, `HasColumn`, `Read`, `NewWriter`,
`WriteHeader`, `Write`) performs at most one call on the underlying source or
sink per invocation, for every input; `WriteAll` on a list of `n` mappings
performs at most `n + 2` calls on the sink. -/
theorem calls_per_operation {σ τ ε : Type} (csvr : CsvReader σ ε) (s : σ) (n : Nat)
    (rheader : List String) (c : ReaderCall)
    (csvw : CsvWriter τ ε) (t : τ) (log : List SinkCall) (header : List String)
    (m : GoMap) (ms : List GoMap) :
    (NewReader csvr.counted (s, n)).2.2 ≤ n + 1 ∧
    (Reader.call csvr.counted ⟨(s, n), rheader⟩ c).r.2 ≤ n + 1 ∧
    (NewWriter (t, log) header).w.2 = log ∧
    (∃ call, (Writer.WriteHeader csvw.logged ⟨(t, log), header⟩).2.w.2 = log ++ [call]) ∧
    (∃ call, (Writer.Write csvw.logged ⟨(t, log), header⟩ m).2.w.2 = log ++ [call]) ∧
    ∃ calls, (Writer.WriteAll csvw.logged ⟨(t, log), header⟩ ms).2.w.2 = log ++ calls ∧
      calls.length ≤ ms.length + 2 := by
  refine ⟨?_, ?_, rfl, ⟨_, rfl⟩, ⟨_, rfl⟩, writeAll_logged_length csvw header ms t log⟩
  · rw [NewReader_snd]
    exact Nat.le_refl _
  · cases c with
    | Header => exact Nat.le_succ n
    | HasColumn name => exact Nat.le_succ n
    | Read =>
      show (Reader.Read csvr.counted ⟨(s, n), rheader⟩).2.r.2 ≤ n + 1
      unfold Reader.Read
      rcases hx : csvr.counted.Read (s, n) with ⟨⟨rec, err⟩, s', n'⟩
      have hn : n' = n + 1 := by
        have : (csvr.counted.Read (s, n)).2.2 = n + 1 := rfl
        rw [hx] at this
        exact this
      subst hn
      cases err <;> exact Nat.le_refl _

/-! ## C17: `Write` after `Read` -/

theorem getElem?_writeRecord_readRecord_lt (header record : List String) (hnd : header.Nodup)
    (i : Nat) (hH : i < header.length) (hR : i < record.length) :
    (writeRecord header (readRecord header record))[i]? = record[i]? := by
  rw [writeRecord_eq_map, List.getElem?_map, List.getElem?_eq_getElem hH,
    List.getElem?_eq_getElem hR, Option.map_some']
  have hl : (readRecord header record).lookup header[i] = some record[i] := by
    apply lookup_readRecord_last header record i
    · exact List.getElem?_eq_getElem hH
    · exact List.getElem?_eq_getElem hR
    · intro j hij _ hj
      have hjH : j < header.length := (List.getElem?_eq_some_iff.mp hj).1
      rw [List.getElem?_eq_getElem hjH, Option.some.injEq, hnd.getElem_inj_iff] at hj
      omega
  rw [GoMap.index, hl]

theorem getElem?_writeRecord_readRecord_ge (header record : List String) (hnd : header.Nodup)
    (i : Nat) (hH : i < header.length) (hR : record.length ≤ i) :
    (writeRecord header (readRecord header record))[i]? = some "" := by
  rw [writeRecord_eq_map, List.getElem?_map, List.getElem?_eq_getElem hH, Option.map_some']
  have hk : header[i] ∉ (readRecord header record).keys := by
    rw [mem_keys_readRecord]
    intro hmem
    obtain ⟨j, hj⟩ := List.getElem?_of_mem hmem
    have hjlt : j < (header.take record.length).length := (List.getElem?_eq_some_iff.mp hj).1
    rw [List.length_take] at hjlt
    have hjR : j < record.length := by omega
    have hjH : j < header.length := by omega
    rw [List.getElem?_take_of_lt hjR, List.getElem?_eq_getElem hjH, Option.some.injEq,
      hnd.getElem_inj_iff] at hj
    omega
  rw [GoMap.index, lookup_eq_none_of_not_mem_keys _ _ hk]

/-- When the read of the source leaves the content of the header slice as it
is, `Write` undoes `Read` as C17 says: for a header `H` whose names are
pairwise distinct, if `m` is the mapping `Read` builds from `R`, then `Write`
(header `H`) on `m` emits the record `s` of length `len(H)` with
`s[i] = R[i]` for every `i < min(len(H), len(R))` and `s[i] = ""` for every
`i` with `len(R) ≤ i < len(H)`; hence `s = R` exactly when
`len(R) = len(H)`. -/
theorem write_undoes_read_kept_header {σ τ ε : Type} (csvr : CsvReader σ ε) (r : Reader σ)
    (record : List String) (csvw : CsvWriter τ ε) (t : τ)
    (hnd : r.header.Nodup) (hsrc : (csvr.Read r.r).1 = (record, none))
    (hkeep : csvr.after r.r r.header = r.header) :
    ∃ m s, (Reader.Read csvr r).1 = Except.ok m ∧
      (Writer.Write csvw.logged ⟨(t, []), r.header⟩ m).2.w.2 = [SinkCall.Write s] ∧
      s.length = r.header.length ∧
      (∀ i, i < r.header.length → i < record.length → s[i]? = record[i]?) ∧
      (∀ i, record.length ≤ i → i < r.header.length → s[i]? = some "") ∧
      (s = record ↔ record.length = r.header.length) := by
  have hlen : (writeRecord r.header (readRecord r.header record)).length = r.header.length := by
    simp [writeRecord_eq_map]
  refine ⟨readRecord r.header record, writeRecord r.header (readRecord r.header record),
    ?_, rfl, hlen, ?_, ?_, ?_⟩
  · rw [Read_keep csvr r record hsrc hkeep]
  · intro i hH hR
    exact getElem?_writeRecord_readRecord_lt r.header record hnd i hH hR
  · intro i hR hH
    exact getElem?_writeRecord_readRecord_ge r.header record hnd i hH hR
  · constructor
    · intro h
      rw [← hlen, h]
    · intro h
      apply List.ext_getElem?
      intro i
      by_cases hi : i < r.header.length
      · exact getElem?_writeRecord_readRecord_lt r.header record hnd i hi (by omega)
      · rw [List.getElem?_eq_none (by omega), List.getElem?_eq_none (by omega)]

/-- C17 (the code at the failing input): a `*csv.Reader` with `ReuseRecord`
set over the text `name,age / John,8`; the header names are distinct and
`len(R) = len(H)`.  The library stores the record into the header slice
before the loop of `Read` runs, so `Read` returns `{John: John, 8: 8}`, and a
`Writer` with header `[name, age]` emits `["", ""]` for it, not
`R = [John, 8]`. -/
theorem write_after_read_reused :
    ∃ r m, (NewReader (reuseSource "EOF")
        ([["name", "age"], ["John", "8"]], Backing.unread 0)).1 = Except.ok r ∧
      r.Header = ["name", "age"] ∧
      (Reader.Read (reuseSource "EOF") r).1 = Except.ok m ∧
      m = ⟨[("John", "John"), ("8", "8")]⟩ ∧
      (Writer.Write (collectSink : CsvWriter _ String).logged
        ⟨([], []), ["name", "age"]⟩ m).2.w.2 = [SinkCall.Write ["", ""]] ∧
      (["", ""] : List String) ≠ ["John", "8"] :=
  ⟨⟨([["John", "8"]], Backing.shared 2), ["name", "age"]⟩,
    ⟨[("John", "John"), ("8", "8")]⟩, rfl, rfl, rfl, rfl, rfl, by decide⟩

/-! ## C18: the number of entries of a mapping read -/

theorem keys_assignEntries (l : List (String × String)) (k v : String) :
    (GoMap.assignEntries l k v).map Prod.fst =
      if k ∈ l.map Prod.fst then l.map Prod.fst else l.map Prod.fst ++ [k] := by
  induction l with
  | nil => simp [GoMap.assignEntries]
  | cons p rest ih =>
    obtain ⟨k', v'⟩ := p
    by_cases hk : k' = k
    · subst hk
      simp [GoMap.assignEntries]
    · have hk' : ¬ k = k' := fun h => hk h.symm
      by_cases hmem : k ∈ rest.map Prod.fst
      · simp only [GoMap.assignEntries, hk, if_false, List.map_cons, ih, hmem, if_true,
          List.mem_cons, or_true]
      · simp only [GoMap.assignEntries, hk, if_false, List.map_cons, ih, hmem,
          List.mem_cons, hk', or_self, List.cons_append]

theorem nodup_keys_assign (m : GoMap) (k v : String) (h : m.keys.Nodup) :
    (m.assign k v).keys.Nodup := by
  unfold GoMap.keys GoMap.assign at *
  simp only
  rw [keys_assignEntries]
  by_cases hmem : k ∈ m.entries.map Prod.fst
  · rw [if_pos hmem]
    exact h
  · rw [if_neg hmem]
    exact List.Nodup.append h (List.nodup_singleton k) (by simpa using hmem)

theorem nodup_keys_assignAll (out : GoMap) (l : List (String × String))
    (h : out.keys.Nodup) : (assignAll out l).keys.Nodup := by
  induction l generalizing out with
  | nil => exact h
  | cons p rest ih => exact ih _ (nodup_keys_assign out p.1 p.2 h)

theorem len_readRecord (header record : List String) :
    (readRecord header record).len = (header.take record.length).toFinset.card := by
  have hnd : (readRecord header record).keys.Nodup := by
    rw [readRecord_eq_assignAll]
    exact nodup_keys_assignAll _ _ List.nodup_nil
  have hlen : (readRecord header record).len = (readRecord header record).keys.length := by
    simp [GoMap.len, GoMap.keys]
  rw [hlen, ← List.toFinset_card_of_nodup hnd]
  congr 1
  ext c
  simp only [List.mem_toFinset]
  exact mem_keys_readRecord header record c

theorem min_eq_length_take (header record : List String) :
    min (header.length : Int) (record.length : Int) =
      ((header.take record.length).length : Int) := by
  rw [List.length_take]
  unfold min
  split <;> omega

theorem toFinset_card_eq_length_iff (l : List String) :
    l.toFinset.card = l.length ↔ l.Nodup := by
  constructor
  · intro h
    rw [List.card_toFinset] at h
    rw [← List.dedup_eq_self]
    exact (List.dedup_sublist l).eq_of_length h
  · exact List.toFinset_card_of_nodup

/-- When the read of the source leaves the content of the header slice as it
is, the mapping read has as many entries as C18 says: the number of distinct
names among the first `min(len(H), len(R))` header entries, which is at most
`min(len(H), len(R))`, with equality if and only if those header entries are
pairwise distinct. -/
theorem read_len_counts_distinct_names_kept_header {σ ε : Type} (csvr : CsvReader σ ε)
    (r : Reader σ) (record : List String) (hsrc : (csvr.Read r.r).1 = (record, none))
    (hkeep : csvr.after r.r r.header = r.header) :
    ∃ m, (Reader.Read csvr r).1 = Except.ok m ∧
      ((r.header.take record.length).length : Int) = min r.header.length record.length ∧
      m.len = (r.header.take record.length).toFinset.card ∧
      (m.len : Int) ≤ min r.header.length record.length ∧
      ((m.len : Int) = min r.header.length record.length ↔
        (r.header.take record.length).Nodup) := by
  refine ⟨readRecord r.header record, ?_, ?_, len_readRecord _ _, ?_, ?_⟩
  · rw [Read_keep csvr r record hsrc hkeep]
  · exact (min_eq_length_take _ _).symm
  · rw [min_eq_length_take, len_readRecord]
    exact Int.ofNat_le.mpr (List.toFinset_card_le _)
  · rw [min_eq_length_take, len_readRecord, Int.ofNat_inj]
    exact toFinset_card_eq_length_iff _

/-- C18 (the code at the failing input): a `*csv.Reader` with `ReuseRecord`
set over the text `a,b / x,x`.  The header `[a, b]` has two distinct names
among its first `min(2, 2) = 2` entries, but the library stores the record
into the header slice before the loop of `Read` runs, so `Read` returns
`{x: x}`, a mapping with one entry. -/
theorem read_len_reused :
    ∃ r m, (NewReader (reuseSource "EOF")
        ([["a", "b"], ["x", "x"]], Backing.unread 0)).1 = Except.ok r ∧
      r.Header = ["a", "b"] ∧
      (Reader.Read (reuseSource "EOF") r).1 = Except.ok m ∧
      m = ⟨[("x", "x")]⟩ ∧ m.len = 1 ∧
      (r.Header.take 2).toFinset.card = 2 ∧ (r.Header.take 2).Nodup ∧
      min (r.Header.length : Int) 2 = 2 :=
  ⟨⟨([["x", "x"]], Backing.shared 2), ["a", "b"]⟩, ⟨[("x", "x")]⟩,
    rfl, rfl, rfl, rfl, rfl, by decide, by decide, by decide⟩

end csvmap
